import Mathlib

/-!
# StorySheet imposition engine — shallow embedding

This file embeds the final-iteration request handler of the StorySheet
repository (a Next.js route that lays out user photos onto a printable
PDF, either as a 12-up single sheet or as an 8-panel mini-zine) and
proves/refutes the frozen specification claims about it.

Conventions of the embedding:
* JS numbers are modelled as `ℚ` (the handler only performs +, -, *, /,
  min and comparisons on them); integer indices are `ℕ`.
* `font.widthOfTextAtSize` is an external pdf-lib metric; following the
  spec ("the wrap depends only on a width-measurement capability") it is
  modelled as an abstract parameter `FontMetric : String → ℕ → ℚ`
  mapping (text, fontSize) to a measured width.
* `Math.round(mid * 1.22)` for `mid : ℕ` is modelled exactly over `ℚ`
  as `⌊(122*mid + 50)/100⌋ = (122*mid + 50) / 100` in `ℕ`.
* `String.trim`/`split(/\s+/).filter(Boolean)` are modelled by a
  structural scanner over the character list producing the maximal
  whitespace-free runs (identical output; leading/trailing whitespace
  only ever produced empty tokens, which both sides drop).
* pdf-lib drawing calls become `DrawOp` values recorded in order; pages
  and the serialized document are the list of those values (spec §6:
  serialization is a pure function of the page contents, no timestamps).
-/

/-- Width metric of one embedded font: text and font size to measured
rendered width (models pdf-lib `font.widthOfTextAtSize`). -/
def FontMetric : Type := String → ℕ → ℚ

/-- The set of fonts the route embeds, addressed by their StandardFonts
name ("HelveticaBold", "HelveticaOblique", "Helvetica"). -/
def FontSet : Type := String → FontMetric

/-- One word-splitting pass: maximal runs of non-whitespace characters,
`cur` is the (reversed) run currently being read. Models
`text.trim().split(/\s+/).filter(Boolean)` from `wrapText`. -/
def splitWordsAux : List Char → List Char → List String
  | [], cur => if cur = [] then [] else [String.mk cur.reverse]
  | c :: cs, cur =>
      if c.isWhitespace then
        (if cur = [] then [] else [String.mk cur.reverse]) ++ splitWordsAux cs []
      else splitWordsAux cs (c :: cur)

def splitWords (text : String) : List String :=
  splitWordsAux text.data []

/-- The greedy wrap loop of `wrapText` (source lines 15-24): `line` is the
line under construction (`""` means empty, as JS falsiness). -/
def wrapCore (font : FontMetric) (fontSize : ℕ) (maxWidth : ℚ) :
    List String → String → List String
  | [], line => if line = "" then [] else [line]
  | w :: ws, line =>
      let candidate := if line = "" then w else line ++ " " ++ w
      if font candidate fontSize ≤ maxWidth then
        wrapCore font fontSize maxWidth ws candidate
      else
        if line = "" then
          wrapCore font fontSize maxWidth ws w
        else
          line :: wrapCore font fontSize maxWidth ws w

/-- `wrapText(font, text, fontSize, maxWidth)` from the source. -/
def wrapText (font : FontMetric) (text : String) (fontSize : ℕ) (maxWidth : ℚ) :
    List String :=
  wrapCore font fontSize maxWidth (splitWords text) ""

/-- `Math.round(fontSize * 1.22)`, the line height used by
`pickFontSizeToFillPage`, computed exactly over `ℚ`. -/
def lineHeightOf (fontSize : ℕ) : ℕ :=
  (122 * fontSize + 50) / 100

/-- Total wrapped block height at candidate size `s`:
`lines.length * lineHeight` from the search loop body. -/
def heightAt (font : FontMetric) (text : String) (maxWidth : ℚ) (s : ℕ) : ℕ :=
  (wrapText font text s maxWidth).length * lineHeightOf s

/-- The fit test of one binary-search probe: `height <= maxHeight`. -/
def fitsAt (font : FontMetric) (text : String) (maxWidth maxHeight : ℚ) (s : ℕ) : Bool :=
  decide ((heightAt font text maxWidth s : ℚ) ≤ maxHeight)

/-- The `while (lo <= hi)` binary search of `pickFontSizeToFillPage`,
with explicit fuel (the loop body strictly shrinks `hi + 1 - lo`, and the
initial fuel 140 exceeds the initial range 140 + 1 - 8 = 133). -/
def bsearchGo (fits : ℕ → Bool) : ℕ → ℕ → ℕ → ℕ → ℕ
  | 0, _, _, best => best
  | fuel + 1, lo, hi, best =>
      if lo ≤ hi then
        let mid := (lo + hi) / 2
        if fits mid then
          bsearchGo fits fuel (mid + 1) hi mid
        else
          bsearchGo fits fuel lo (mid - 1) best
      else best

/-- `(text || "").trim() || " "` — blank input is replaced by a single
space. (The untrimmed text is kept otherwise: `wrapText` re-splits on
whitespace, so edge whitespace is dropped identically either way.) -/
def isBlank (text : String) : Bool := text.data.all (fun c => c.isWhitespace)

def safeTextOf (text : String) : String :=
  if isBlank text then " " else text

structure FitResult where
  fontSize : ℕ
  lineHeight : ℕ
  lines : List String
deriving Repr, DecidableEq

/-- `pickFontSizeToFillPage(font, text, maxWidth, maxHeight)` from the
source: binary search of the largest font size in [8, 140] whose wrapped
block fits in `maxHeight`, defaulting `best` to 12. -/
def pickFontSizeToFillPage (font : FontMetric) (text : String)
    (maxWidth maxHeight : ℚ) : FitResult :=
  let safeText := safeTextOf text
  let best := bsearchGo (fitsAt font safeText maxWidth maxHeight) 140 8 140 12
  { fontSize := best
    lineHeight := lineHeightOf best
    lines := wrapText font safeText best maxWidth }

/-- One recorded drawing call (`drawImage`, `drawRectangle`, `drawText`).
For images, `idx` is the position in the uploaded list and `cellIndex`
the physical panel slot; `x y` are the coordinates passed to pdf-lib
(for a 180° draw the code passes the opposite corner), `rot` the
`rotate: degrees(180)` flag. -/
inductive DrawOp where
  | image (idx cellIndex : ℕ) (x y w h : ℚ) (rot : Bool)
  | rect (x y w h : ℚ) (rot : Bool)
  | text (s fontTag : String) (size : ℕ) (x y : ℚ) (rot : Bool)
deriving Repr, DecidableEq

def opRot : DrawOp → Bool
  | .image _ _ _ _ _ _ r => r
  | .rect _ _ _ _ r => r
  | .text _ _ _ _ _ r => r

/-- `zineSlotForPage` (source lines 182-194): the fixed mini-zine
imposition table; `none` models JS `undefined` off-table. -/
def zineSlotForPage (pageNum : ℕ) : Option ℕ :=
  match pageNum with
  | 8 => some 0
  | 1 => some 1
  | 2 => some 2
  | 3 => some 3
  | 7 => some 4
  | 6 => some 5
  | 5 => some 6
  | 4 => some 7
  | _ => none

/-- `drawPanelLabel` (source lines 59-132): caption on a white strip,
optionally rotated 180° with the corner-compensated coordinates. -/
def drawPanelLabel (font : FontMetric) (fontTag text : String) (fontSize : ℕ)
    (panelX panelY panelW panelH : ℚ) (anchorTop rotate180 : Bool) :
    List DrawOp :=
  let padX : ℚ := 6
  let padY : ℚ := 3
  let textW := font text fontSize
  let textH : ℚ := (fontSize : ℚ)
  let tx := panelX + panelW / 2 - textW / 2
  let ty := if anchorTop then panelY + panelH * (72 / 100) else panelY + 8
  let rectW := textW + padX * 2
  let rectH := textH + padY * 2
  let rx := tx - padX
  let ry := ty - padY
  if rotate180 then
    [DrawOp.rect (rx + rectW) (ry + rectH) rectW rectH true,
     DrawOp.text text fontTag fontSize (tx + textW) (ty + textH) true]
  else
    [DrawOp.rect rx ry rectW rectH false,
     DrawOp.text text fontTag fontSize tx ty false]

/-- One uploaded file: declared MIME type plus the native pixel
dimensions pdf-lib reports after embedding (`embedded.scale(1)`). -/
structure ImageFile where
  type : String
  width : ℚ
  height : ℚ
deriving Repr, DecidableEq

/-- The format gate of the loop body: `f.type !== "image/jpeg" &&
f.type !== "image/png" → continue`. -/
def supportedType (t : String) : Bool :=
  t = "image/jpeg" || t = "image/png"

/-- Page geometry constants per mode (source lines 156-171). -/
def pageWOf (isZine : Bool) : ℚ := if isZine then 792 else 612
def pageHOf (isZine : Bool) : ℚ := if isZine then 612 else 792
def colsOf (isZine : Bool) : ℕ := if isZine then 4 else 3
def rowsOf (isZine : Bool) : ℕ := if isZine then 2 else 4
def maxImagesOf (isZine : Bool) : ℕ := if isZine then 8 else 12

def MARGIN_TOP : ℚ := 28
def MARGIN_OTHER : ℚ := 28
def GUTTER : ℚ := 10

def cellWOf (isZine : Bool) : ℚ :=
  (pageWOf isZine - MARGIN_OTHER * 2 - GUTTER * ((colsOf isZine : ℚ) - 1)) / (colsOf isZine : ℚ)

def cellHOf (isZine : Bool) : ℚ :=
  (pageHOf isZine - MARGIN_TOP - MARGIN_OTHER - GUTTER * ((rowsOf isZine : ℚ) - 1)) / (rowsOf isZine : ℚ)

/-- `cellIndex` for the image at 0-based position `i` (source lines
207-208): identity for the sheet, `zineSlotForPage(i+1)` for the zine.
The `getD 0` default is unreachable: the zine loop runs over at most 8
images, so `i+1 ∈ [1,8]` is always on the table. -/
def cellIndexFor (isZine : Bool) (i : ℕ) : ℕ :=
  if isZine then (zineSlotForPage (i + 1)).getD 0 else i

def panelRowOf (isZine : Bool) (cellIndex : ℕ) : ℕ :=
  cellIndex / colsOf isZine

/-- `topRowRotated = isZine && row === 0` (source line 227). -/
def panelRotated (isZine : Bool) (cellIndex : ℕ) : Bool :=
  isZine && decide (panelRowOf isZine cellIndex = 0)

/-- Aspect-fit of native dimensions `(w,h)` into a cell `(cw,ch)`
(source lines 218-222): uniform scale `min(cw/w, ch/h)`. Returns the
drawn width and height. -/
def fitInCell (w h cw ch : ℚ) : ℚ × ℚ :=
  let scale := min (cw / w) (ch / h)
  (w * scale, h * scale)

/-- Drawing calls issued by one iteration of the image loop (source
lines 196-272): the aspect-fitted, centered, possibly rotated image
draw, then the fixed captions on zine logical pages 1 and 8. A file of
unsupported type produces nothing (`continue`). -/
def opsFor (isZine : Bool) (fonts : FontSet) (i : ℕ) (f : ImageFile) : List DrawOp :=
  if supportedType f.type then
    let cellIndex := cellIndexFor isZine i
    let col := cellIndex % colsOf isZine
    let row := panelRowOf isZine cellIndex
    let cellW := cellWOf isZine
    let cellH := cellHOf isZine
    let panelX := MARGIN_OTHER + (col : ℚ) * (cellW + GUTTER)
    let yTop := pageHOf isZine - MARGIN_TOP - (row : ℚ) * (cellH + GUTTER)
    let panelY := yTop - cellH
    let d := fitInCell f.width f.height cellW cellH
    let dx := panelX + (cellW - d.1) / 2
    let dy := panelY + (cellH - d.2) / 2
    let rot := panelRotated isZine cellIndex
    let imgOp := DrawOp.image i cellIndex
      (if rot then dx + d.1 else dx) (if rot then dy + d.2 else dy) d.1 d.2 rot
    let label1 :=
      if isZine = true ∧ i + 1 = 1 then
        drawPanelLabel (fonts "HelveticaBold") "HelveticaBold"
          "Close Friends Only" 10 panelX panelY cellW cellH true rot
      else []
    let label8 :=
      if isZine = true ∧ i + 1 = 8 then
        drawPanelLabel (fonts "HelveticaOblique") "HelveticaOblique"
          "Open the zine to read the letter." 7 panelX panelY cellW cellH false rot
      else []
    imgOp :: (label1 ++ label8)
  else []

/-- The image loop (source line 196), carrying the 0-based index. -/
def page1OpsGo (isZine : Bool) (fonts : FontSet) : ℕ → List ImageFile → List DrawOp
  | _, [] => []
  | i, f :: rest => opsFor isZine fonts i f ++ page1OpsGo isZine fonts (i + 1) rest

/-- The optional back letter page (source lines 275-297): auto-fitted
`backText` drawn line by line, the block vertically centered. -/
def backPageOps (fonts : FontSet) (pageW pageH : ℚ) (backText : String) : List DrawOp :=
  let margin : ℚ := 32
  let maxWidth := pageW - margin * 2
  let maxHeight := pageH - margin * 2
  let r := pickFontSizeToFillPage (fonts "Helvetica") backText maxWidth maxHeight
  let textBlockHeight : ℚ := ((r.lines.length : ℚ)) * (r.lineHeight : ℚ)
  let y0 := margin + (maxHeight - textBlockHeight) / 2 + textBlockHeight - (r.fontSize : ℚ)
  (r.lines.enum.map fun p =>
    DrawOp.text p.2 "Helvetica" r.fontSize margin (y0 - (p.1 : ℚ) * (r.lineHeight : ℚ)) false)

/-- One produced PDF page: its dimensions and its drawing calls in
issue order. -/
structure PageModel where
  pageW : ℚ
  pageH : ℚ
  ops : List DrawOp
deriving Repr, DecidableEq

/-- The composition pipeline after input decoding (source lines
150-299), keyed by the already-computed `isZine` flag. -/
def composePages (fonts : FontSet) (isZine includeBackText : Bool)
    (backText : String) (files : List ImageFile) : List PageModel :=
  let PAGE_W := pageWOf isZine
  let PAGE_H := pageHOf isZine
  let selected := files.take (maxImagesOf isZine)
  let page1 : PageModel := ⟨PAGE_W, PAGE_H, page1OpsGo isZine fonts 0 selected⟩
  if isZine && includeBackText then
    [page1, ⟨PAGE_W, PAGE_H, backPageOps fonts PAGE_W PAGE_H backText⟩]
  else
    [page1]

/-- Structured error payload of a failed request (`NextResponse.json(
{error: ...}, {status: ...})`). -/
structure ApiError where
  message : String
  status : ℕ
deriving Repr, DecidableEq

/-- `mode = asString(form.get("mode")) || "sheet12"` — a missing or
non-string field reads as `""`, which falls back to `"sheet12"`. -/
def modeOf (modeField : Option String) : String :=
  if modeField.getD "" = "" then "sheet12" else modeField.getD ""

/-- The request handler `POST` (source lines 134-311) on decoded form
data. Fallible image decoding and PDF serialization live in pdf-lib
(outside this repository); per spec §5/§6 the pipeline is a pure
transformation, so the handler is total here and the only error source
is the empty-upload check. -/
def POST (fonts : FontSet) (modeField includeBackTextField backTextField : Option String)
    (files : List ImageFile) : Except ApiError (List PageModel) :=
  let mode := modeOf modeField
  let includeBackText : Bool := decide (includeBackTextField.getD "" = "true")
  let backText := backTextField.getD ""
  if files = [] then
    .error ⟨"No images uploaded.", 400⟩
  else
    .ok (composePages fonts (mode == "zine8") includeBackText backText files)

/-- The image placements of a page in draw order: (upload index,
physical slot, rotated?). -/
def imagePlacements (ops : List DrawOp) : List (ℕ × ℕ × Bool) :=
  ops.filterMap fun op =>
    match op with
    | .image i c _ _ _ _ r => some (i, c, r)
    | _ => none

/-! ### Binary-search lemmas -/

/-- If size 8 fits, the binary search never returns a non-fitting size:
`best` is only ever overwritten by probed fitting sizes, and the
all-probes-fail path (which would keep the default 12) must have probed
and rejected size 8. -/
lemma bsearchGo_fits_of_fits8 (fits : ℕ → Bool) (h8 : fits 8 = true) :
    ∀ fuel lo hi best, hi + 1 - lo ≤ fuel → 8 ≤ lo →
      (fits best = true ∨ (lo = 8 ∧ 8 ≤ hi)) →
      fits (bsearchGo fits fuel lo hi best) = true := by
  intro fuel
  induction fuel with
  | zero =>
    intro lo hi best hf hlo hinv
    rcases hinv with h | h
    · exact h
    · omega
  | succ fuel ih =>
    intro lo hi best hf hlo hinv
    by_cases hlh : lo ≤ hi
    · rw [bsearchGo, if_pos hlh]
      by_cases hfm : fits ((lo + hi) / 2) = true
      · rw [if_pos hfm]
        exact ih ((lo + hi) / 2 + 1) hi ((lo + hi) / 2) (by omega) (by omega) (Or.inl hfm)
      · rw [if_neg hfm]
        rcases hinv with h | h
        · exact ih lo ((lo + hi) / 2 - 1) best (by omega) hlo (Or.inl h)
        · have hmid8 : (lo + hi) / 2 ≠ 8 := fun he => hfm (he ▸ h8)
          exact ih lo ((lo + hi) / 2 - 1) best (by omega) hlo (Or.inr ⟨h.1, by omega⟩)
    · rw [bsearchGo, if_neg hlh]
      rcases hinv with h | h
      · exact h
      · omega

/-- When the fitting sizes form a downward-closed set reaching up to the
threshold `T` (and no further within the search range), the binary
search returns exactly `T`. -/
lemma bsearchGo_eq_of_threshold (fits : ℕ → Bool) (T : ℕ)
    (hfit : ∀ s, 8 ≤ s → s ≤ T → fits s = true)
    (hnot : ∀ s, T < s → s ≤ 140 → fits s = false) :
    ∀ fuel lo hi best, hi + 1 - lo ≤ fuel → 8 ≤ lo → hi ≤ 140 →
      ((best = T ∧ T < lo) ∨ (lo ≤ T ∧ T ≤ hi)) →
      bsearchGo fits fuel lo hi best = T := by
  intro fuel
  induction fuel with
  | zero =>
    intro lo hi best hf hlo hhi hinv
    rcases hinv with h | h
    · exact h.1
    · omega
  | succ fuel ih =>
    intro lo hi best hf hlo hhi hinv
    by_cases hlh : lo ≤ hi
    · rw [bsearchGo, if_pos hlh]
      by_cases hfm : fits ((lo + hi) / 2) = true
      · rw [if_pos hfm]
        have hmidT : (lo + hi) / 2 ≤ T := by
          by_contra hgt
          rw [hnot ((lo + hi) / 2) (by omega) (by omega)] at hfm
          exact Bool.false_ne_true hfm
        rcases Nat.lt_or_ge ((lo + hi) / 2) T with hlt | hge
        · exact ih ((lo + hi) / 2 + 1) hi ((lo + hi) / 2) (by omega) (by omega) hhi
            (Or.inr ⟨by omega, by rcases hinv with h | h <;> omega⟩)
        · have heq : (lo + hi) / 2 = T := by omega
          exact ih ((lo + hi) / 2 + 1) hi ((lo + hi) / 2) (by omega) (by omega) hhi
            (Or.inl ⟨heq, by omega⟩)
      · rw [if_neg hfm]
        have hTmid : T < (lo + hi) / 2 := by
          by_contra hle
          rcases Nat.lt_or_ge ((lo + hi) / 2) 8 with h8 | h8
          · omega
          · exact hfm (hfit ((lo + hi) / 2) h8 (by omega))
        rcases hinv with h | h
        · exact ih lo ((lo + hi) / 2 - 1) best (by omega) hlo (by omega) (Or.inl h)
        · exact ih lo ((lo + hi) / 2 - 1) best (by omega) hlo (by omega)
            (Or.inr ⟨h.1, by omega⟩)
    · rw [bsearchGo, if_neg hlh]
      rcases hinv with h | h
      · exact h.1
      · omega

/-- Under a downward-closed fit predicate that holds at 8, the search
returns the greatest fitting size in the range. -/
lemma bsearch_eq_findGreatest (fits : ℕ → Bool) (h8 : fits 8 = true)
    (hdc : ∀ s t, 8 ≤ s → s ≤ t → t ≤ 140 → fits t = true → fits s = true) :
    bsearchGo fits 140 8 140 12 = Nat.findGreatest (fun s => fits s = true) 140 := by
  have hT8 : 8 ≤ Nat.findGreatest (fun s => fits s = true) 140 :=
    Nat.le_findGreatest (by norm_num) h8
  have hTle : Nat.findGreatest (fun s => fits s = true) 140 ≤ 140 :=
    Nat.findGreatest_le 140
  have hiff := Nat.findGreatest_eq_iff.1
    (rfl : Nat.findGreatest (fun s => fits s = true) 140 =
           Nat.findGreatest (fun s => fits s = true) 140)
  have hfitT : fits (Nat.findGreatest (fun s => fits s = true) 140) = true :=
    hiff.2.1 (by omega)
  have hnot : ∀ s, Nat.findGreatest (fun s => fits s = true) 140 < s → s ≤ 140 →
      fits s = false := by
    intro s hTs hs140
    have h := hiff.2.2 hTs hs140
    simpa using h
  exact bsearchGo_eq_of_threshold fits _
    (fun s hs8 hsT => hdc s _ hs8 hsT hTle hfitT) hnot
    140 8 140 12 (by omega) (by omega) (by omega) (Or.inr ⟨hT8, hTle⟩)

/-! ### C1: the mini-zine permutation and rotation rule -/

/-- C1: for every MiniZine generation, `zineSlotForPage` realises
exactly the fixed table 1↦1, 2↦2, 3↦3, 4↦7, 5↦6, 6↦5, 7↦4, 8↦0; that
table is a bijection from logical pages {1..8} onto physical slots
{0..7}; and the rotation flag computed for a slot is set exactly on the
top row (slots 0..3) and cleared on the bottom row (slots 4..7). -/
theorem zine_permutation_correct :
    (zineSlotForPage 1 = some 1 ∧ zineSlotForPage 2 = some 2 ∧
     zineSlotForPage 3 = some 3 ∧ zineSlotForPage 4 = some 7 ∧
     zineSlotForPage 5 = some 6 ∧ zineSlotForPage 6 = some 5 ∧
     zineSlotForPage 7 = some 4 ∧ zineSlotForPage 8 = some 0) ∧
    (∀ p < 9, ∀ q < 9, 1 ≤ p → 1 ≤ q →
      zineSlotForPage p = zineSlotForPage q → p = q) ∧
    (∀ s < 8, ∃ p < 9, 1 ≤ p ∧ zineSlotForPage p = some s) ∧
    (∀ s < 8, (panelRotated true s = true ↔ s < 4)) := by
  refine ⟨by decide, by decide, by decide, by decide⟩

/-! ### Wrap-loop invariants -/

/-- Every line emitted by the wrap loop either was an accepted candidate
(measured width within `maxWidth`), or is one of the remaining words
(a single word placed alone after overflowing), or is the line the loop
started with. -/
lemma wrapCore_mem (font : FontMetric) (fontSize : ℕ) (maxWidth : ℚ) :
    ∀ ws line l, l ∈ wrapCore font fontSize maxWidth ws line →
      font l fontSize ≤ maxWidth ∨ l ∈ ws ∨ l = line := by
  intro ws
  induction ws with
  | nil =>
    intro line l hl
    simp only [wrapCore] at hl
    split at hl
    · simp at hl
    · simp at hl; right; right; exact hl
  | cons w ws ih =>
    intro line l hl
    simp only [wrapCore] at hl
    by_cases hfit : font (if line = "" then w else line ++ " " ++ w) fontSize ≤ maxWidth
    · rw [if_pos hfit] at hl
      rcases ih _ l hl with h | h | h
      · exact Or.inl h
      · exact Or.inr (Or.inl (List.mem_cons_of_mem w h))
      · subst h; exact Or.inl hfit
    · rw [if_neg hfit] at hl
      by_cases hline : line = ""
      · rw [if_pos hline] at hl
        rcases ih _ l hl with h | h | h
        · exact Or.inl h
        · exact Or.inr (Or.inl (List.mem_cons_of_mem w h))
        · subst h; exact Or.inr (Or.inl (List.mem_cons_self _ _))
      · rw [if_neg hline] at hl
        rcases List.mem_cons.1 hl with h | h
        · exact Or.inr (Or.inr h)
        · rcases ih _ l h with h2 | h2 | h2
          · exact Or.inl h2
          · exact Or.inr (Or.inl (List.mem_cons_of_mem w h2))
          · subst h2; exact Or.inr (Or.inl (List.mem_cons_self _ _))

/-- The wrap loop never emits an empty line (`if (line) lines.push(line)`
guards every push). -/
lemma wrapCore_ne_empty (font : FontMetric) (fontSize : ℕ) (maxWidth : ℚ) :
    ∀ ws line l, l ∈ wrapCore font fontSize maxWidth ws line → l ≠ "" := by
  intro ws
  induction ws with
  | nil =>
    intro line l hl
    simp only [wrapCore] at hl
    split at hl
    · simp at hl
    · simp at hl; subst hl; assumption
  | cons w ws ih =>
    intro line l hl
    simp only [wrapCore] at hl
    by_cases hfit : font (if line = "" then w else line ++ " " ++ w) fontSize ≤ maxWidth
    · rw [if_pos hfit] at hl
      exact ih _ l hl
    · rw [if_neg hfit] at hl
      by_cases hline : line = ""
      · rw [if_pos hline] at hl
        exact ih _ l hl
      · rw [if_neg hline] at hl
        rcases List.mem_cons.1 hl with h | h
        · subst h; assumption
        · exact ih _ l h

/-- A simple monospace-style width model (`width = fontSize × charCount`),
used as the concrete font metric of counterexamples and witnesses. -/
def monoMetric : FontMetric := fun s size => (size : ℚ) * (s.length : ℚ)

/-! ### C2: text auto-fit safety -/

/-- C2 counterexample: the claim fails as stated on both conjuncts.
With height budget 1 no candidate size fits, so the search returns the
default size 12 whose block height 15 exceeds the budget; and a single
word wider than the width budget is returned as a line whose measured
width exceeds `maxWidth`. Both `(W,H)` pairs are positive. -/
theorem text_autofit_safety_cex :
    (0 : ℚ) < 1000 ∧ (0 : ℚ) < 1 ∧ (0 : ℚ) < 10 ∧
    ¬ ((((pickFontSizeToFillPage monoMetric "abcdef" 1000 1).lines.length *
         (pickFontSizeToFillPage monoMetric "abcdef" 1000 1).lineHeight : ℕ) : ℚ) ≤ 1) ∧
    ¬ (∀ l ∈ (pickFontSizeToFillPage monoMetric "abcdef" 10 1000).lines,
         monoMetric l (pickFontSizeToFillPage monoMetric "abcdef" 10 1000).fontSize ≤ 10) := by
  refine ⟨by norm_num, by norm_num, by norm_num, by with_unfolding_all decide,
    by with_unfolding_all decide⟩

/-- C2 as amended: whenever the text wrapped at the minimum searched
size 8 fits within the height budget, the returned block height does
not exceed `maxHeight`; and every returned line either measures within
`maxWidth` at the returned size or is a single input word (placed alone
because it overflows on its own). -/
theorem text_autofit_safety (font : FontMetric) (text : String) (W H : ℚ)
    (h8 : ((heightAt font (safeTextOf text) W 8 : ℕ) : ℚ) ≤ H) :
    (((pickFontSizeToFillPage font text W H).lines.length *
      (pickFontSizeToFillPage font text W H).lineHeight : ℕ) : ℚ) ≤ H ∧
    ∀ l ∈ (pickFontSizeToFillPage font text W H).lines,
      font l (pickFontSizeToFillPage font text W H).fontSize ≤ W ∨
        l ∈ splitWords (safeTextOf text) := by
  constructor
  · have h8b : fitsAt font (safeTextOf text) W H 8 = true := by
      simp only [fitsAt, decide_eq_true_eq]
      exact h8
    have hfit := bsearchGo_fits_of_fits8 (fitsAt font (safeTextOf text) W H) h8b
      140 8 140 12 (by omega) (by omega) (Or.inr ⟨rfl, by omega⟩)
    exact of_decide_eq_true hfit
  · intro l hl
    have hmem := wrapCore_mem font
      (pickFontSizeToFillPage font text W H).fontSize W
      (splitWords (safeTextOf text)) "" l hl
    have hne := wrapCore_ne_empty font
      (pickFontSizeToFillPage font text W H).fontSize W
      (splitWords (safeTextOf text)) "" l hl
    rcases hmem with h | h | h
    · exact Or.inl h
    · exact Or.inr h
    · exact absurd h hne

/-- C2 witness: at a concrete metric, text and budgets the amended
safety theorem applies. -/
theorem text_autofit_safety_witness :
    (((heightAt monoMetric (safeTextOf "hello world") 100 8 : ℕ) : ℚ) ≤ 50) ∧
    ((((pickFontSizeToFillPage monoMetric "hello world" 100 50).lines.length *
       (pickFontSizeToFillPage monoMetric "hello world" 100 50).lineHeight : ℕ) : ℚ) ≤ 50 ∧
     ∀ l ∈ (pickFontSizeToFillPage monoMetric "hello world" 100 50).lines,
       monoMetric l (pickFontSizeToFillPage monoMetric "hello world" 100 50).fontSize ≤ 100 ∨
         l ∈ splitWords (safeTextOf "hello world")) :=
  ⟨by with_unfolding_all decide,
   text_autofit_safety monoMetric "hello world" 100 50 (by with_unfolding_all decide)⟩

/-! ### C5: text auto-fit monotonicity in the height budget -/

/-- C5 counterexample: with a monospace metric and the single word "a"
(one line at every size), no candidate size fits the height budget 5, so
the search returns the default 12; budget 11 admits size 9. The claim
`S2 ≥ S1` fails: 9 < 12. -/
theorem text_autofit_mono_cex :
    (5 : ℚ) < 11 ∧
    (pickFontSizeToFillPage monoMetric "a" 1000 5).fontSize = 12 ∧
    (pickFontSizeToFillPage monoMetric "a" 1000 11).fontSize = 9 ∧
    ¬ ((pickFontSizeToFillPage monoMetric "a" 1000 5).fontSize ≤
       (pickFontSizeToFillPage monoMetric "a" 1000 11).fontSize) := by
  refine ⟨by norm_num, ?_, ?_, ?_⟩ <;> with_unfolding_all decide

/-- C5 as amended: under the monotonicity assumption the spec's §4.3
search relies on (wrapped block height nondecreasing in font size over
the searched range) and provided the text fits at the minimum size 8
within the smaller budget (so the non-fitting fallback size 12 is not
taken), the returned font size is monotone in the height budget. -/
theorem text_autofit_mono (font : FontMetric) (text : String) (W H1 H2 : ℚ)
    (hmono : ∀ s t, 8 ≤ s → s ≤ t → t ≤ 140 →
      heightAt font (safeTextOf text) W s ≤ heightAt font (safeTextOf text) W t)
    (h8 : ((heightAt font (safeTextOf text) W 8 : ℕ) : ℚ) ≤ H1)
    (h12 : H1 ≤ H2) :
    (pickFontSizeToFillPage font text W H1).fontSize ≤
      (pickFontSizeToFillPage font text W H2).fontSize := by
  have hdc : ∀ H : ℚ, ∀ s t, 8 ≤ s → s ≤ t → t ≤ 140 →
      fitsAt font (safeTextOf text) W H t = true →
      fitsAt font (safeTextOf text) W H s = true := by
    intro H s t hs hst ht hfit
    simp only [fitsAt, decide_eq_true_eq] at hfit ⊢
    calc ((heightAt font (safeTextOf text) W s : ℕ) : ℚ)
        ≤ ((heightAt font (safeTextOf text) W t : ℕ) : ℚ) := by
          exact_mod_cast hmono s t hs hst ht
      _ ≤ H := hfit
  have h8a : fitsAt font (safeTextOf text) W H1 8 = true := by
    simp only [fitsAt, decide_eq_true_eq]; exact h8
  have h8b : fitsAt font (safeTextOf text) W H2 8 = true := by
    simp only [fitsAt, decide_eq_true_eq]; exact le_trans h8 h12
  show bsearchGo (fitsAt font (safeTextOf text) W H1) 140 8 140 12 ≤
       bsearchGo (fitsAt font (safeTextOf text) W H2) 140 8 140 12
  rw [bsearch_eq_findGreatest _ h8a (hdc H1), bsearch_eq_findGreatest _ h8b (hdc H2)]
  refine Nat.findGreatest_mono_left ?_ 140
  intro n hn
  simp only [fitsAt, decide_eq_true_eq] at hn ⊢
  exact le_trans hn h12

lemma lineHeightOf_mono {s t : ℕ} (h : s ≤ t) : lineHeightOf s ≤ lineHeightOf t :=
  Nat.div_le_div_right (by omega)

/-- At the monospace metric, the single word "a" wraps to one line at
every searched size, so the block height is the line height. -/
lemma heightAt_monoMetric_a {s : ℕ} (hs : s ≤ 140) :
    heightAt monoMetric (safeTextOf "a") 1000 s = lineHeightOf s := by
  have hsafe : safeTextOf "a" = "a" := rfl
  rw [hsafe]
  have hw : monoMetric "a" s ≤ 1000 := by
    show (s : ℚ) * (("a".length : ℕ) : ℚ) ≤ 1000
    have h1 : ("a".length : ℕ) = 1 := rfl
    rw [h1]
    push_cast
    have : (s : ℚ) ≤ 140 := by exact_mod_cast hs
    linarith
  show (wrapCore monoMetric s 1000 (splitWords "a") "").length * lineHeightOf s =
    lineHeightOf s
  have hsw : splitWords "a" = ["a"] := rfl
  rw [hsw]
  simp only [wrapCore, if_true]
  rw [if_pos hw]
  simp

lemma heightAt_monoMetric_a_mono : ∀ s t, 8 ≤ s → s ≤ t → t ≤ 140 →
    heightAt monoMetric (safeTextOf "a") 1000 s ≤
      heightAt monoMetric (safeTextOf "a") 1000 t := by
  intro s t hs hst ht
  rw [heightAt_monoMetric_a (le_trans hst ht), heightAt_monoMetric_a ht]
  exact lineHeightOf_mono hst

/-- C5 witness: the amended monotonicity theorem applied at the
monospace metric, text "a", and budgets 20 ≤ 30. -/
theorem text_autofit_mono_witness :
    (((heightAt monoMetric (safeTextOf "a") 1000 8 : ℕ) : ℚ) ≤ 20) ∧ ((20:ℚ) ≤ 30) ∧
    (pickFontSizeToFillPage monoMetric "a" 1000 20).fontSize ≤
      (pickFontSizeToFillPage monoMetric "a" 1000 30).fontSize :=
  ⟨by with_unfolding_all decide, by norm_num,
   text_autofit_mono monoMetric "a" 1000 20 30 heightAt_monoMetric_a_mono
     (by with_unfolding_all decide) (by norm_num)⟩

/-! ### C4: empty back text -/

/-- C4: the code's own `(text || "").trim() || " "` fallback intends a
blank input to wrap as one blank line, but `wrapText` trims and filters
again, so the single space degenerates to an empty word list and the
result is an EMPTY list of lines at the top-of-range size 140 (every
candidate fits a zero-height block). This contradicts the claimed
"single blank line — never a zero-length list". -/
theorem empty_backtext_gives_zero_lines (font : FontMetric) (text : String)
    (W H : ℚ) (hblank : isBlank text = true) (h : 0 < H) :
    pickFontSizeToFillPage font text W H = ⟨140, 171, []⟩ := by
  have hsafe : safeTextOf text = " " := by simp [safeTextOf, hblank]
  have hwrap : ∀ s, wrapText font (safeTextOf text) s W = [] := by
    intro s; rw [hsafe]; rfl
  have hfits : fitsAt font (safeTextOf text) W H = fun _ => true := by
    funext s
    have h0 : heightAt font (safeTextOf text) W s = 0 := by
      rw [heightAt, hwrap s]; simp
    simp only [fitsAt, h0, Nat.cast_zero, decide_eq_true_eq]
    exact h.le
  show pickFontSizeToFillPage font text W H = ⟨140, 171, []⟩
  simp only [pickFontSizeToFillPage]
  rw [hfits, hsafe]
  rfl

/-- C4 witness: at a concrete metric and positive page rectangle, the
empty back text produces zero lines (and font size 140). -/
theorem empty_backtext_gives_zero_lines_witness :
    isBlank "" = true ∧ (0:ℚ) < 100 ∧
    pickFontSizeToFillPage monoMetric "" 50 100 = ⟨140, 171, []⟩ :=
  ⟨by decide, by norm_num,
   empty_backtext_gives_zero_lines monoMetric "" 50 100 (by decide) (by norm_num)⟩

/-! ### C6: aspect-fit and centering -/

/-- C6: for positive native dimensions and a positive cell, the drawn
dimensions `fitInCell` computes preserve the native ratio exactly, fit
inside the cell, touch at least one cell bound, and the centering
offsets `(cellSize − drawnSize)/2` place the drawn rectangle's center on
the cell's center on both axes. -/
theorem aspect_fit_law (w h cw ch : ℚ) (hw : 0 < w) (hh : 0 < h)
    (hcw : 0 < cw) (hch : 0 < ch) :
    (fitInCell w h cw ch).1 / (fitInCell w h cw ch).2 = w / h ∧
    (fitInCell w h cw ch).1 ≤ cw ∧ (fitInCell w h cw ch).2 ≤ ch ∧
    ((fitInCell w h cw ch).1 = cw ∨ (fitInCell w h cw ch).2 = ch) ∧
    (∀ px : ℚ, (px + (cw - (fitInCell w h cw ch).1) / 2) +
        (fitInCell w h cw ch).1 / 2 = px + cw / 2) ∧
    (∀ py : ℚ, (py + (ch - (fitInCell w h cw ch).2) / 2) +
        (fitInCell w h cw ch).2 / 2 = py + ch / 2) := by
  have hs : 0 < min (cw / w) (ch / h) := lt_min (div_pos hcw hw) (div_pos hch hh)
  have h1 : (fitInCell w h cw ch).1 = w * min (cw / w) (ch / h) := rfl
  have h2 : (fitInCell w h cw ch).2 = h * min (cw / w) (ch / h) := rfl
  refine ⟨?_, ?_, ?_, ?_, fun px => by ring, fun py => by ring⟩
  · rw [h1, h2, mul_comm w _, mul_comm h _]
    exact mul_div_mul_left w h (ne_of_gt hs)
  · rw [h1]
    calc w * min (cw / w) (ch / h) ≤ w * (cw / w) :=
          mul_le_mul_of_nonneg_left (min_le_left _ _) hw.le
      _ = cw := by field_simp
  · rw [h2]
    calc h * min (cw / w) (ch / h) ≤ h * (ch / h) :=
          mul_le_mul_of_nonneg_left (min_le_right _ _) hh.le
      _ = ch := by field_simp
  · rcases min_choice (cw / w) (ch / h) with hmin | hmin
    · left; rw [h1, hmin]; field_simp
    · right; rw [h2, hmin]; field_simp

/-- C6 witness: a 200×100 image in a 50×50 cell draws at 50×25 (ratio
kept, width tight, centered). -/
theorem aspect_fit_law_witness :
    (0:ℚ) < 200 ∧ (0:ℚ) < 100 ∧ (0:ℚ) < 50 ∧
    ((fitInCell 200 100 50 50).1 / (fitInCell 200 100 50 50).2 = 200 / 100 ∧
     (fitInCell 200 100 50 50).1 ≤ 50 ∧ (fitInCell 200 100 50 50).2 ≤ 50 ∧
     ((fitInCell 200 100 50 50).1 = 50 ∨ (fitInCell 200 100 50 50).2 = 50) ∧
     (∀ px : ℚ, (px + (50 - (fitInCell 200 100 50 50).1) / 2) +
         (fitInCell 200 100 50 50).1 / 2 = px + 50 / 2) ∧
     (∀ py : ℚ, (py + (50 - (fitInCell 200 100 50 50).2) / 2) +
         (fitInCell 200 100 50 50).2 / 2 = py + 50 / 2)) :=
  ⟨by norm_num, by norm_num, by norm_num,
   aspect_fit_law 200 100 50 50 (by norm_num) (by norm_num) (by norm_num) (by norm_num)⟩

/-! ### C8: empty upload rejection -/

/-- C8: the handler returns the InvalidInput payload (`"No images
uploaded."`, HTTP 400) exactly when the uploaded list is empty, and any
request with at least one image produces a document (no error branch is
taken, and the error branch produces no pages at all by type). -/
theorem invalid_input_iff_empty (fonts : FontSet) (modeField ibtField btField : Option String)
    (files : List ImageFile) :
    (POST fonts modeField ibtField btField files =
        .error ⟨"No images uploaded.", 400⟩ ↔ files = []) ∧
    (files ≠ [] → ∃ pages, POST fonts modeField ibtField btField files = .ok pages) := by
  constructor
  · constructor
    · intro hcontra
      by_contra hne
      simp only [POST] at hcontra
      rw [if_neg hne] at hcontra
      exact Except.noConfusion hcontra
    · intro h
      subst h
      rfl
  · intro hne
    refine ⟨composePages fonts (modeOf modeField == "zine8")
      (decide (ibtField.getD "" = "true")) (btField.getD "") files, ?_⟩
    simp only [POST]
    rw [if_neg hne]

/-! ### C9: deterministic generation -/

/-- C9: the composition is a pure function of `(mode, images,
includeBackText, backText)` and the font metrics — running it twice on
equal inputs yields identical documents. (PDF serialization itself is
outside this repository; per spec §8 it is modelled as a deterministic
function of the page contents, with no timestamps or randomness.) -/
theorem generation_deterministic (fonts fonts2 : FontSet)
    (mf mf2 ibtF ibtF2 btF btF2 : Option String) (files files2 : List ImageFile)
    (hf : fonts = fonts2) (hm : mf = mf2) (hi : ibtF = ibtF2) (hb : btF = btF2)
    (hfl : files = files2) :
    POST fonts mf ibtF btF files = POST fonts2 mf2 ibtF2 btF2 files2 := by
  subst hf; subst hm; subst hi; subst hb; subst hfl; rfl

/-- C9 witness: two runs on one concrete zine request coincide. -/
theorem generation_deterministic_witness :
    POST (fun _ => monoMetric) (some "zine8") (some "true") (some "hi")
      [⟨"image/jpeg", 4, 3⟩] =
    POST (fun _ => monoMetric) (some "zine8") (some "true") (some "hi")
      [⟨"image/jpeg", 4, 3⟩] :=
  generation_deterministic (fun _ => monoMetric) (fun _ => monoMetric)
    (some "zine8") (some "zine8") (some "true") (some "true") (some "hi") (some "hi")
    [⟨"image/jpeg", 4, 3⟩] [⟨"image/jpeg", 4, 3⟩] rfl rfl rfl rfl rfl

/-! ### C10: unknown modes fall back to the 12-up sheet -/

lemma modeOf_ne_zine8 {mf : Option String} (h : mf ≠ some "zine8") :
    modeOf mf ≠ "zine8" := by
  cases mf with
  | none => simp [modeOf]
  | some s =>
    simp only [modeOf, Option.getD_some]
    by_cases hs : s = ""
    · rw [if_pos hs]; simp
    · rw [if_neg hs]
      intro he
      exact h (by rw [he])

lemma opRot_opsFor_false (fonts : FontSet) (i : ℕ) (f : ImageFile) :
    ∀ op ∈ opsFor false fonts i f, opRot op = false := by
  intro op hop
  by_cases hsup : supportedType f.type = true
  · simp [opsFor, hsup, panelRotated] at hop
    subst hop
    rfl
  · simp [opsFor, hsup] at hop

lemma opRot_page1OpsGo_false (fonts : FontSet) :
    ∀ sel k op, op ∈ page1OpsGo false fonts k sel → opRot op = false := by
  intro sel
  induction sel with
  | nil => intro k op hop; simp [page1OpsGo] at hop
  | cons f rest ih =>
    intro k op hop
    simp only [page1OpsGo, List.mem_append] at hop
    rcases hop with h | h
    · exact opRot_opsFor_false fonts k f op h
    · exact ih (k + 1) op h

/-- C10: a request whose mode field is anything but the literal
`"zine8"` (absent, empty, or unrecognized) is not rejected; it is
handled exactly like `mode = "sheet12"`, yielding (when any image is
uploaded) a single 612×792 portrait page with no rotated draw call and
no back-text page. -/
theorem unknown_mode_is_sheet12 (fonts : FontSet) (mf ibtF btF : Option String)
    (files : List ImageFile) (h : mf ≠ some "zine8") :
    POST fonts mf ibtF btF files = POST fonts (some "sheet12") ibtF btF files ∧
    (files ≠ [] → ∃ p : PageModel,
      POST fonts mf ibtF btF files = .ok [p] ∧
      p.pageW = 612 ∧ p.pageH = 792 ∧ ∀ op ∈ p.ops, opRot op = false) := by
  have hz : (modeOf mf == "zine8") = false :=
    beq_eq_false_iff_ne.mpr (modeOf_ne_zine8 h)
  have hz2 : (modeOf (some "sheet12") == "zine8") = false := by decide
  constructor
  · simp only [POST, hz, hz2]
  · intro hne
    refine ⟨⟨612, 792, page1OpsGo false fonts 0 (files.take 12)⟩, ?_, rfl, rfl, ?_⟩
    · simp only [POST, hz]
      rw [if_neg hne]
      rfl
    · intro op hop
      exact opRot_page1OpsGo_false fonts _ 0 op hop

/-- C10 witness: an unrecognized mode string behaves as the sheet mode. -/
theorem unknown_mode_is_sheet12_witness :
    (some "postcard" ≠ some "zine8") ∧
    POST (fun _ => monoMetric) (some "postcard") none none [⟨"image/png", 30, 40⟩] =
      POST (fun _ => monoMetric) (some "sheet12") none none [⟨"image/png", 30, 40⟩] :=
  ⟨by simp,
   (unknown_mode_is_sheet12 (fun _ => monoMetric) (some "postcard") none none
      [⟨"image/png", 30, 40⟩] (by simp)).1⟩

/-! ### C7: clipping to the per-mode maximum -/

lemma imagePlacements_drawPanelLabel (font : FontMetric) (tag text : String)
    (size : ℕ) (px py pw ph : ℚ) (a r : Bool) :
    imagePlacements (drawPanelLabel font tag text size px py pw ph a r) = [] := by
  simp only [drawPanelLabel]
  split <;> rfl

lemma imagePlacements_append (l1 l2 : List DrawOp) :
    imagePlacements (l1 ++ l2) = imagePlacements l1 ++ imagePlacements l2 :=
  List.filterMap_append _ _ _

lemma imagePlacements_nil : imagePlacements [] = [] := rfl

lemma imagePlacements_image_cons (i c : ℕ) (x y w h : ℚ) (r : Bool)
    (rest : List DrawOp) :
    imagePlacements (DrawOp.image i c x y w h r :: rest) =
      (i, c, r) :: imagePlacements rest := rfl

lemma imagePlacements_opsFor (z : Bool) (fonts : FontSet) (i : ℕ) (f : ImageFile) :
    imagePlacements (opsFor z fonts i f) =
      if supportedType f.type = true then
        [(i, cellIndexFor z i, panelRotated z (cellIndexFor z i))]
      else [] := by
  by_cases hsup : supportedType f.type = true
  · rw [if_pos hsup]
    simp only [opsFor, hsup, if_true]
    rw [show ∀ a b : List DrawOp, ∀ op, op :: (a ++ b) = [op] ++ (a ++ b) from
      fun a b op => rfl]
    rw [imagePlacements_append, imagePlacements_append]
    split_ifs <;>
      simp [imagePlacements_drawPanelLabel, imagePlacements_nil,
        imagePlacements_image_cons, imagePlacements_append]
  · rw [if_neg hsup]
    simp [opsFor, hsup, imagePlacements_nil]

/-- Membership characterization of the placements emitted by the image
loop started at index `k` over the clipped list `sel`. -/
lemma mem_imagePlacements_page1OpsGo (z : Bool) (fonts : FontSet) :
    ∀ sel k t, t ∈ imagePlacements (page1OpsGo z fonts k sel) ↔
      ∃ j f, sel[j]? = some f ∧ supportedType f.type = true ∧
        t = (k + j, cellIndexFor z (k + j), panelRotated z (cellIndexFor z (k + j))) := by
  intro sel
  induction sel with
  | nil =>
    intro k t
    simp [page1OpsGo, imagePlacements]
  | cons f rest ih =>
    intro k t
    simp only [page1OpsGo]
    rw [imagePlacements_append, List.mem_append, imagePlacements_opsFor, ih (k + 1) t]
    constructor
    · rintro (h | ⟨j, g, hj, hsup, ht⟩)
      · by_cases hsup : supportedType f.type = true
        · rw [if_pos hsup] at h
          simp only [List.mem_singleton] at h
          exact ⟨0, f, by simp, hsup, by simpa using h⟩
        · rw [if_neg hsup] at h
          simp at h
      · refine ⟨j + 1, g, by simpa using hj, hsup, ?_⟩
        rw [ht]
        have harith : k + 1 + j = k + (j + 1) := by omega
        rw [harith]
    · rintro ⟨j, g, hj, hsup, ht⟩
      cases j with
      | zero =>
        left
        simp only [List.getElem?_cons_zero, Option.some_inj] at hj
        subst hj
        rw [if_pos hsup]
        simp only [List.mem_singleton]
        simpa using ht
      | succ j =>
        right
        refine ⟨j, g, by simpa using hj, hsup, ?_⟩
        rw [ht]
        have harith : k + 1 + j = k + (j + 1) := by omega
        rw [harith]

lemma mem_placements_take (z : Bool) (fonts : FontSet) (files : List ImageFile) (j : ℕ) :
    (∃ c r, (j, c, r) ∈
        imagePlacements (page1OpsGo z fonts 0 (files.take (maxImagesOf z)))) ↔
      (j < maxImagesOf z ∧ ∃ f, files[j]? = some f ∧ supportedType f.type = true) := by
  constructor
  · rintro ⟨c, r, hmem⟩
    rcases (mem_imagePlacements_page1OpsGo z fonts _ 0 _).1 hmem with ⟨j2, f, hj2, hsup, ht⟩
    have hj : j = j2 := by
      have h := congrArg Prod.fst ht
      simpa using h
    subst hj
    rw [List.getElem?_take] at hj2
    by_cases hlt : j < maxImagesOf z
    · rw [if_pos hlt] at hj2
      exact ⟨hlt, f, hj2, hsup⟩
    · rw [if_neg hlt] at hj2
      exact Option.noConfusion hj2
  · rintro ⟨hlt, f, hj, hsup⟩
    refine ⟨cellIndexFor z j, panelRotated z (cellIndexFor z j),
      (mem_imagePlacements_page1OpsGo z fonts _ 0 _).2 ⟨j, f, ?_, hsup, ?_⟩⟩
    · rw [List.getElem?_take, if_pos hlt]
      exact hj
    · simp

/-- C7: a placement with upload index `j` exists iff `j` is below the
per-mode maximum (12 for the sheet, 8 for the zine) and the j-th
uploaded file exists with a supported type — so exactly the first
`min(N, maxImages)` files are considered, excess files are silently
dropped, the request does not error, and outside zine mode the output
has exactly the single front page. -/
theorem excess_images_ignored (fonts : FontSet) (mf ibtF btF : Option String)
    (files : List ImageFile) (hne : files ≠ []) :
    ∃ page1 rest, POST fonts mf ibtF btF files = .ok (page1 :: rest) ∧
      (∀ j : ℕ, (∃ c r, (j, c, r) ∈ imagePlacements page1.ops) ↔
        (j < maxImagesOf (modeOf mf == "zine8") ∧
         ∃ f, files[j]? = some f ∧ supportedType f.type = true)) ∧
      ((modeOf mf == "zine8") = false → rest = []) := by
  by_cases hib : ((modeOf mf == "zine8") && decide (ibtF.getD "" = "true")) = true
  · refine ⟨⟨pageWOf (modeOf mf == "zine8"), pageHOf (modeOf mf == "zine8"),
        page1OpsGo (modeOf mf == "zine8") fonts 0
          (files.take (maxImagesOf (modeOf mf == "zine8")))⟩,
      [⟨pageWOf (modeOf mf == "zine8"), pageHOf (modeOf mf == "zine8"),
        backPageOps fonts (pageWOf (modeOf mf == "zine8"))
          (pageHOf (modeOf mf == "zine8")) (btF.getD "")⟩], ?_, ?_, ?_⟩
    · simp only [POST]
      rw [if_neg hne]
      simp only [composePages]
      rw [if_pos hib]
    · intro j
      exact mem_placements_take _ fonts files j
    · intro hz
      rw [hz] at hib
      simp at hib
  · refine ⟨⟨pageWOf (modeOf mf == "zine8"), pageHOf (modeOf mf == "zine8"),
        page1OpsGo (modeOf mf == "zine8") fonts 0
          (files.take (maxImagesOf (modeOf mf == "zine8")))⟩, [], ?_, ?_, ?_⟩
    · simp only [POST]
      rw [if_neg hne]
      simp only [composePages]
      rw [if_neg hib]
    · intro j
      exact mem_placements_take _ fonts files j
    · intro _
      rfl

def files15 : List ImageFile := List.replicate 15 ⟨"image/png", 10, 20⟩

/-- C7 witness: fifteen sheet-mode uploads — indices 0..11 are placed,
12..14 are dropped, one page comes back. -/
theorem excess_images_ignored_witness :
    (files15 ≠ []) ∧
    (∃ page1 rest,
      POST (fun _ => monoMetric) none none none files15 = .ok (page1 :: rest) ∧
      (∀ j : ℕ, (∃ c r, (j, c, r) ∈ imagePlacements page1.ops) ↔
        (j < maxImagesOf (modeOf none == "zine8") ∧
         ∃ f, files15[j]? = some f ∧ supportedType f.type = true)) ∧
      ((modeOf none == "zine8") = false → rest = [])) :=
  ⟨by decide,
   excess_images_ignored (fun _ => monoMetric) none none none files15 (by decide)⟩

/-! ### C3: the MiniZine front-sheet scenario -/

/-- The placements of the first page of a successful response. -/
def firstPagePlacements (res : Except ApiError (List PageModel)) :
    List (ℕ × ℕ × Bool) :=
  match res with
  | .ok (p :: _) => imagePlacements p.ops
  | _ => []

def files8c : List ImageFile := List.replicate 8 ⟨"image/jpeg", 100, 100⟩

/-- C3 counterexample: with 8 supported images and no back text the zine
response has one page and the image at position 0 goes to physical slot
1 ROTATED (slot 1 lies on the rotated top row), contradicting the
claimed "placed in physical slot 1 and drawn unrotated". -/
theorem zine_scenario_c_cex :
    ((POST (fun _ => monoMetric) (some "zine8") (some "false") none files8c).toOption.map
        List.length) = some 1 ∧
    firstPagePlacements
        (POST (fun _ => monoMetric) (some "zine8") (some "false") none files8c) =
      [(0, 1, true), (1, 2, true), (2, 3, true), (3, 7, false),
       (4, 6, false), (5, 5, false), (6, 4, false), (7, 0, true)] ∧
    ¬ (0, 1, false) ∈ firstPagePlacements
        (POST (fun _ => monoMetric) (some "zine8") (some "false") none files8c) := by
  refine ⟨?_, ?_, ?_⟩ <;> with_unfolding_all decide

/-- C3 as amended: with `mode = zine8`, 8 supported images and
`includeBackText = false`, the output has exactly one page; the image at
position 0 (logical page 1) is placed in physical slot 1 and drawn
rotated 180° (slot 1 is in the rotated top row), and the image at
position 7 (logical page 8) is placed in slot 0, also rotated 180°. -/
theorem zine_scenario_c (fonts : FontSet) (files : List ImageFile)
    (hlen : files.length = 8) (hsup : ∀ f ∈ files, supportedType f.type = true) :
    ∃ p, POST fonts (some "zine8") (some "false") none files = .ok [p] ∧
      imagePlacements p.ops =
        [(0, 1, true), (1, 2, true), (2, 3, true), (3, 7, false),
         (4, 6, false), (5, 5, false), (6, 4, false), (7, 0, true)] := by
  rcases files with _ | ⟨f0, files⟩; · simp at hlen
  rcases files with _ | ⟨f1, files⟩; · simp at hlen
  rcases files with _ | ⟨f2, files⟩; · simp at hlen
  rcases files with _ | ⟨f3, files⟩; · simp at hlen
  rcases files with _ | ⟨f4, files⟩; · simp at hlen
  rcases files with _ | ⟨f5, files⟩; · simp at hlen
  rcases files with _ | ⟨f6, files⟩; · simp at hlen
  rcases files with _ | ⟨f7, files⟩; · simp at hlen
  have hnil : files = [] := by
    have h0 : files.length = 0 := by simpa using hlen
    exact List.length_eq_zero.1 h0
  subst hnil
  have h0 : supportedType f0.type = true := hsup f0 (by simp)
  have h1 : supportedType f1.type = true := hsup f1 (by simp)
  have h2 : supportedType f2.type = true := hsup f2 (by simp)
  have h3 : supportedType f3.type = true := hsup f3 (by simp)
  have h4 : supportedType f4.type = true := hsup f4 (by simp)
  have h5 : supportedType f5.type = true := hsup f5 (by simp)
  have h6 : supportedType f6.type = true := hsup f6 (by simp)
  have h7 : supportedType f7.type = true := hsup f7 (by simp)
  refine ⟨⟨792, 612,
    page1OpsGo true fonts 0 ([f0, f1, f2, f3, f4, f5, f6, f7].take 8)⟩, ?_, ?_⟩
  · simp only [POST]
    rw [if_neg (by simp)]
    rfl
  · show imagePlacements
        (page1OpsGo true fonts 0 ([f0, f1, f2, f3, f4, f5, f6, f7].take 8)) = _
    rw [List.take_of_length_le (by simp)]
    simp only [page1OpsGo, imagePlacements_append, imagePlacements_opsFor,
      h0, h1, h2, h3, h4, h5, h6, h7, if_true, imagePlacements_nil]
    decide

/-- C3 witness: the amended scenario theorem applied to eight concrete
JPEG uploads. -/
theorem zine_scenario_c_witness :
    files8c.length = 8 ∧ (∀ f ∈ files8c, supportedType f.type = true) ∧
    (∃ p, POST (fun _ => monoMetric) (some "zine8") (some "false") none files8c =
        .ok [p] ∧
      imagePlacements p.ops =
        [(0, 1, true), (1, 2, true), (2, 3, true), (3, 7, false),
         (4, 6, false), (5, 5, false), (6, 4, false), (7, 0, true)]) :=
  ⟨by decide, by decide,
   zine_scenario_c (fun _ => monoMetric) files8c (by decide) (by decide)⟩
